import Mathlib

/-!
Verification of the entity-store / event-publishing core of the
nest-kafka-microservices-demo repository (NestJS + Kafka CRUD demo).

The TypeScript source is shallowly embedded:
* `Json` models the JavaScript JSON value universe reachable in this
  program; numeric literals are modelled as integers (the repository's
  `price: number` is embedded as `Int`; floating point is outside the
  scope of the embedding).
* `renderJson` models `JSON.stringify` (no spacing, insertion-order keys,
  standard string escaping) and `parseJson` models `JSON.parse`
  (whitespace-tolerant recursive descent, fuelled by input length).
* `Date` values are modelled as milliseconds since the epoch (`Nat`);
  `toISOString` models `Date.prototype.toISOString`.
* The in-memory `Map<string, Product>` is an insertion-ordered
  association list with JavaScript `Map` semantics (`jsMapGet`,
  `jsMapSet`, `jsMapDelete`, `jsMapValues`).
* Each `ProductsService` mutation is a function of the pre-state that
  returns the caller-visible outcome together with the ordered trace of
  primitive effects (`StoreStep`): store writes and Kafka emit attempts,
  in source order.  The broker outcome of the awaited
  `KafkaProducerService.emit` is the `publishOk` parameter: when it is
  `false` the awaited send rejects, which the service does not catch, so
  the caller-visible outcome is the `deliveryFailed` error while the
  already-performed store writes remain.
* `uuidv4()` and `new Date()` are external inputs, passed as the
  `newId` / `now` parameters.
-/

/-- JSON values, as produced by `JSON.parse` for this program.
Numbers are modelled as integers (see module comment). -/
inductive Json where
  | null : Json
  | bool : Bool → Json
  | num : Int → Json
  | str : String → Json
  | arr : List Json → Json
  | obj : List (String × Json) → Json

/-- Object field lookup, as JavaScript property access `j[k]` on a parsed
JSON object (first binding wins); non-objects have no fields. -/
def Json.getField : Json → String → Option Json
  | Json.obj kvs, k => (kvs.find? (fun kv => kv.1 == k)).map (fun kv => kv.2)
  | _, _ => none

/-- JSON insignificant whitespace skipping. -/
def skipWs : List Char → List Char
  | [] => []
  | c :: cs => if c = ' ' || c = '\t' || c = '\n' || c = '\r' then skipWs cs else c :: cs

/-- Decimal digit character for a value below 10. -/
def digitCh (d : Nat) : Char :=
  match d with
  | 0 => '0' | 1 => '1' | 2 => '2' | 3 => '3' | 4 => '4'
  | 5 => '5' | 6 => '6' | 7 => '7' | 8 => '8' | _ => '9'

/-- Lowercase hex digit character for a value below 16 (as emitted by
`JSON.stringify` in `\u00XX` escapes). -/
def hexCh (d : Nat) : Char :=
  match d with
  | 0 => '0' | 1 => '1' | 2 => '2' | 3 => '3' | 4 => '4'
  | 5 => '5' | 6 => '6' | 7 => '7' | 8 => '8' | 9 => '9'
  | 10 => 'a' | 11 => 'b' | 12 => 'c' | 13 => 'd' | 14 => 'e' | _ => 'f'

/-- Value of a hex digit character, if any. -/
def hexVal (c : Char) : Option Nat :=
  if '0' ≤ c ∧ c ≤ '9' then some (c.toNat - 48)
  else if 'a' ≤ c ∧ c ≤ 'f' then some (c.toNat - 87)
  else if 'A' ≤ c ∧ c ≤ 'F' then some (c.toNat - 55)
  else none

/-- Decimal digit characters of a natural number, most significant first. -/
def natToChars (n : Nat) : List Char :=
  if n < 10 then [digitCh n]
  else natToChars (n / 10) ++ [digitCh (n % 10)]
  termination_by n
  decreasing_by exact Nat.div_lt_self (by omega) (by omega)

/-- Decimal rendering of an integer, as `JSON.stringify` renders it. -/
def intToChars (i : Int) : List Char :=
  if i < 0 then '-' :: natToChars i.natAbs else natToChars i.natAbs

/-- `JSON.stringify` escaping of a single string character. -/
def escapeChar (c : Char) : List Char :=
  if c = '"' then ['\\', '"']
  else if c = '\\' then ['\\', '\\']
  else if c = Char.ofNat 8 then ['\\', 'b']
  else if c = Char.ofNat 9 then ['\\', 't']
  else if c = Char.ofNat 10 then ['\\', 'n']
  else if c = Char.ofNat 12 then ['\\', 'f']
  else if c = Char.ofNat 13 then ['\\', 'r']
  else if c.toNat < 32 then ['\\', 'u', '0', '0', hexCh (c.toNat / 16), hexCh (c.toNat % 16)]
  else [c]

/-- Escaped body of a JSON string literal. -/
def escapeList (cs : List Char) : List Char :=
  match cs with
  | [] => []
  | c :: cs => escapeChar c ++ escapeList cs

/-- A JSON string literal, quotes included. -/
def renderString (s : String) : List Char :=
  '"' :: (escapeList s.data ++ ['"'])

/-- Parse the body of a JSON string literal after the opening quote,
accumulating decoded characters in reverse. -/
def parseStringBody : List Char → List Char → Option (String × List Char)
  | [], _ => none
  | c :: cs, acc =>
    if c = '"' then some (String.mk acc.reverse, cs)
    else if c = '\\' then
      match cs with
      | [] => none
      | e :: cs₂ =>
        if e = '"' then parseStringBody cs₂ ('"' :: acc)
        else if e = '\\' then parseStringBody cs₂ ('\\' :: acc)
        else if e = '/' then parseStringBody cs₂ ('/' :: acc)
        else if e = 'b' then parseStringBody cs₂ (Char.ofNat 8 :: acc)
        else if e = 't' then parseStringBody cs₂ (Char.ofNat 9 :: acc)
        else if e = 'n' then parseStringBody cs₂ (Char.ofNat 10 :: acc)
        else if e = 'f' then parseStringBody cs₂ (Char.ofNat 12 :: acc)
        else if e = 'r' then parseStringBody cs₂ (Char.ofNat 13 :: acc)
        else if e = 'u' then
          match cs₂ with
          | h₁ :: h₂ :: h₃ :: h₄ :: cs₃ =>
            match hexVal h₁, hexVal h₂, hexVal h₃, hexVal h₄ with
            | some a, some b, some c', some d =>
              let n := ((a * 16 + b) * 16 + c') * 16 + d
              if n < 55296 ∨ 57343 < n then parseStringBody cs₃ (Char.ofNat n :: acc)
              else none
            | _, _, _, _ => none
          | _ => none
        else none
    else if c.toNat < 32 then none
    else parseStringBody cs (c :: acc)

/-- Longest digit prefix and the remainder. -/
def takeDigits : List Char → List Char × List Char
  | [] => ([], [])
  | c :: cs =>
    if c.isDigit then
      let p := takeDigits cs
      (c :: p.1, p.2)
    else ([], c :: cs)

/-- Numeric value of a list of decimal digit characters. -/
def digitsToNat (ds : List Char) : Nat :=
  ds.foldl (fun a c => a * 10 + (c.toNat - 48)) 0

/-- JSON forbids redundant leading zeros in numeric literals: a literal
of several digits must not start with `'0'`. -/
def leadOk : List Char → Bool
  | c :: _ :: _ => !(c = '0')
  | _ => true

/-- After an integer literal the input must not continue with a digit or
with a fraction/exponent marker (non-integer numerals are outside the
scope of this embedding, see module comment). -/
def numBoundary : List Char → Bool
  | [] => true
  | c :: _ => !(c.isDigit || c = '.' || c = 'e' || c = 'E')

mutual
/-- Fuelled recursive-descent JSON value parser modelling `JSON.parse`. -/
def parseVal : Nat → List Char → Option (Json × List Char)
  | 0, _ => none
  | fuel + 1, cs =>
    match skipWs cs with
    | [] => none
    | c :: cs₁ =>
      if c = '{' then
        match skipWs cs₁ with
        | '}' :: rest => some (Json.obj [], rest)
        | cs₂ => parseMembers fuel cs₂ []
      else if c = '[' then
        match skipWs cs₁ with
        | ']' :: rest => some (Json.arr [], rest)
        | cs₂ => parseElems fuel cs₂ []
      else if c = '"' then
        match parseStringBody cs₁ [] with
        | some (s, rest) => some (Json.str s, rest)
        | none => none
      else if c = 't' then
        match cs₁ with
        | 'r' :: 'u' :: 'e' :: rest => some (Json.bool true, rest)
        | _ => none
      else if c = 'f' then
        match cs₁ with
        | 'a' :: 'l' :: 's' :: 'e' :: rest => some (Json.bool false, rest)
        | _ => none
      else if c = 'n' then
        match cs₁ with
        | 'u' :: 'l' :: 'l' :: rest => some (Json.null, rest)
        | _ => none
      else if c = '-' then
        match takeDigits cs₁ with
        | ([], _) => none
        | (ds, rest) =>
          if leadOk ds && numBoundary rest then
            some (Json.num (-(digitsToNat ds : Int)), rest)
          else none
      else if c.isDigit then
        match takeDigits (c :: cs₁) with
        | (ds, rest) =>
          if leadOk ds && numBoundary rest then
            some (Json.num (digitsToNat ds : Int), rest)
          else none
      else none

/-- Parse the members of a JSON object after the opening brace (nonempty
object), accumulating parsed members in reverse. -/
def parseMembers : Nat → List Char → List (String × Json) → Option (Json × List Char)
  | 0, _, _ => none
  | fuel + 1, cs, acc =>
    match skipWs cs with
    | '"' :: cs₁ =>
      match parseStringBody cs₁ [] with
      | some (k, rest) =>
        match skipWs rest with
        | ':' :: rest₁ =>
          match parseVal fuel rest₁ with
          | some (v, rest₂) =>
            match skipWs rest₂ with
            | ',' :: rest₃ => parseMembers fuel rest₃ ((k, v) :: acc)
            | '}' :: rest₃ => some (Json.obj ((k, v) :: acc).reverse, rest₃)
            | _ => none
          | none => none
        | _ => none
      | none => none
    | _ => none

/-- Parse the elements of a JSON array after the opening bracket (nonempty
array), accumulating parsed elements in reverse. -/
def parseElems : Nat → List Char → List Json → Option (Json × List Char)
  | 0, _, _ => none
  | fuel + 1, cs, acc =>
    match parseVal fuel cs with
    | some (v, rest) =>
      match skipWs rest with
      | ',' :: rest₁ => parseElems fuel rest₁ (v :: acc)
      | ']' :: rest₁ => some (Json.arr (v :: acc).reverse, rest₁)
      | _ => none
    | none => none
end

/-- `JSON.parse`: parse a complete value, allowing surrounding whitespace,
rejecting trailing input. -/
def parseJson (s : String) : Option Json :=
  match parseVal (s.length + 1) s.data with
  | some (j, rest) => if skipWs rest = [] then some j else none
  | none => none

mutual
/-- `JSON.stringify` (no spacing): character rendering of a JSON value. -/
def renderVal : Json → List Char
  | Json.null => ['n', 'u', 'l', 'l']
  | Json.bool true => ['t', 'r', 'u', 'e']
  | Json.bool false => ['f', 'a', 'l', 's', 'e']
  | Json.num i => intToChars i
  | Json.str s => renderString s
  | Json.arr es => '[' :: (renderElemsR es ++ [']'])
  | Json.obj kvs => '{' :: (renderMembersR kvs ++ ['}'])

/-- Comma-separated rendering of object members. -/
def renderMembersR : List (String × Json) → List Char
  | [] => []
  | [(k, v)] => renderString k ++ ':' :: renderVal v
  | (k, v) :: kvs => renderString k ++ ':' :: renderVal v ++ ',' :: renderMembersR kvs

/-- Comma-separated rendering of array elements. -/
def renderElemsR : List Json → List Char
  | [] => []
  | [v] => renderVal v
  | v :: vs => renderVal v ++ ',' :: renderElemsR vs
end

/-- `JSON.stringify` as a string-valued function. -/
def renderJson (j : Json) : String :=
  String.mk (renderVal j)

/-- Civil calendar date (year, month, day) from days since 1970-01-01,
for the proleptic Gregorian calendar (days on or after the epoch). -/
def civilFromDays (z : Nat) : Nat × Nat × Nat :=
  let z' := z + 719468
  let era := z' / 146097
  let doe := z' % 146097
  let yoe := (doe - doe / 1460 + doe / 36524 - doe / 146096) / 365
  let y := yoe + era * 400
  let doy := doe - (365 * yoe + yoe / 4 - yoe / 100)
  let mp := (5 * doy + 2) / 153
  let d := doy - (153 * mp + 2) / 5 + 1
  let m := if mp < 10 then mp + 3 else mp - 9
  (if m ≤ 2 then y + 1 else y, m, d)

/-- Zero-padding to two decimal digits. -/
def pad2 (n : Nat) : String :=
  if n < 10 then "0" ++ toString n else toString n

/-- Zero-padding to three decimal digits. -/
def pad3 (n : Nat) : String :=
  if n < 10 then "00" ++ toString n
  else if n < 100 then "0" ++ toString n
  else toString n

/-- Zero-padding to four decimal digits. -/
def pad4 (n : Nat) : String :=
  if n < 10 then "000" ++ toString n
  else if n < 100 then "00" ++ toString n
  else if n < 1000 then "0" ++ toString n
  else toString n

/-- `Date.prototype.toISOString` for an instant given in milliseconds
since the epoch: `YYYY-MM-DDTHH:mm:ss.sssZ` (UTC). -/
def toISOString (ms : Nat) : String :=
  let msPart := ms % 1000
  let totalSec := ms / 1000
  let s := totalSec % 60
  let totalMin := totalSec / 60
  let mi := totalMin % 60
  let totalHour := totalMin / 60
  let h := totalHour % 24
  let days := totalHour / 24
  let ymd := civilFromDays days
  pad4 ymd.1 ++ "-" ++ pad2 ymd.2.1 ++ "-" ++ pad2 ymd.2.2 ++ "T" ++
    pad2 h ++ ":" ++ pad2 mi ++ ":" ++ pad2 s ++ "." ++ pad3 msPart ++ "Z"

/-- Product entity (src/products/entities/product.entity.ts).  `Date`
fields are milliseconds since the epoch; `price: number` is embedded as
`Int` (see module comment). -/
structure Product where
  id : String
  name : String
  description : String
  price : Int
  createdAt : Nat
  updatedAt : Nat
deriving DecidableEq, Repr

/-- DTO for creating a product (src/products/dto/create-product.dto.ts);
all fields required (validation is the HTTP layer's concern). -/
structure CreateProductDto where
  name : String
  description : String
  price : Int
deriving DecidableEq, Repr

/-- DTO for a partial update (src/products/dto/update-product.dto.ts);
every field optional, `none` embeds the field being absent (`undefined`). -/
structure UpdateProductDto where
  name : Option String
  description : Option String
  price : Option Int
deriving DecidableEq, Repr

namespace PRODUCT_EVENTS

/-- Kafka event type for creation (products.service.ts). -/
def CREATED : String := "product.created"

/-- Kafka event type for update (products.service.ts). -/
def UPDATED : String := "product.updated"

/-- Kafka event type for deletion (products.service.ts). -/
def DELETED : String := "product.deleted"

end PRODUCT_EVENTS

/-- The service's in-memory store `Map<string, Product>`: an
insertion-ordered association list with JavaScript `Map` semantics. -/
abbrev Store := List (String × Product)

/-- The empty `Map` (initial state of `ProductsService.products`). -/
def jsMapEmpty : Store := []

/-- `Map.prototype.get`. -/
def jsMapGet : Store → String → Option Product
  | [], _ => none
  | kv :: rest, k => if kv.1 = k then some kv.2 else jsMapGet rest k

/-- `Map.prototype.set`: replace in place if the key is present
(preserving insertion order), otherwise append. -/
def jsMapSet : Store → String → Product → Store
  | [], k, v => [(k, v)]
  | kv :: rest, k, v => if kv.1 = k then (k, v) :: rest else kv :: jsMapSet rest k v

/-- `Map.prototype.delete`: remove the entry with the given key. -/
def jsMapDelete : Store → String → Store
  | [], _ => []
  | kv :: rest, k => if kv.1 = k then rest else kv :: jsMapDelete rest k

/-- `Map.prototype.values` in insertion order. -/
def jsMapValues (s : Store) : List Product :=
  s.map (fun kv => kv.2)

/-- A primitive effect of a service mutation, in source order: a store
write (`Map.set`), a store removal (`Map.delete`), or a Kafka publish
attempt (`kafkaProducer.emit`). -/
inductive StoreStep where
  | set : String → Product → StoreStep
  | del : String → StoreStep
  | emit : String → Product → StoreStep
deriving DecidableEq, Repr

/-- Effect of one primitive step on the store (emits do not touch it). -/
def applyStep (s : Store) : StoreStep → Store
  | StoreStep.set k v => jsMapSet s k v
  | StoreStep.del k => jsMapDelete s k
  | StoreStep.emit _ _ => s

/-- Store state after a trace of primitive steps. -/
def replay (s : Store) (steps : List StoreStep) : Store :=
  steps.foldl applyStep s

/-- The publish attempts of a trace, in order. -/
def emitsOf (steps : List StoreStep) : List (String × Product) :=
  steps.filterMap (fun st =>
    match st with
    | StoreStep.emit t p => some (t, p)
    | _ => none)

/-- Caller-visible failures: `NotFoundException` thrown by the service,
or the rejection of the awaited Kafka send (`DeliveryFailed`). -/
inductive OpError where
  | notFound : String → OpError
  | deliveryFailed : OpError
deriving DecidableEq, Repr

namespace ProductsService

/-- `ProductsService.create` (products.service.ts lines 34-48): build the
product with a fresh id and `createdAt = updatedAt = now`, `Map.set` it,
then await the `product.created` emit.  `newId` is the `uuidv4()` result,
`now` the clock reading, `publishOk` the broker outcome of the awaited
emit; a rejected emit is not caught, so it becomes the caller's outcome
after the store write already happened. -/
def create (dto : CreateProductDto) (newId : String) (now : Nat) (publishOk : Bool)
    (_s : Store) : Except OpError Product × List StoreStep :=
  let product : Product :=
    { id := newId
      name := dto.name
      description := dto.description
      price := dto.price
      createdAt := now
      updatedAt := now }
  ((if publishOk then Except.ok product else Except.error OpError.deliveryFailed),
   [StoreStep.set product.id product, StoreStep.emit PRODUCT_EVENTS.CREATED product])

/-- `ProductsService.findAll` (products.service.ts lines 50-52):
`Array.from(this.products.values())`. -/
def findAll (s : Store) : List Product :=
  jsMapValues s

/-- `ProductsService.findOne` (products.service.ts lines 54-58): read the
map, throw `NotFoundException` when absent.  It performs no mutation. -/
def findOne (id : String) (s : Store) : Except OpError Product :=
  match jsMapGet s id with
  | none => Except.error (OpError.notFound id)
  | some product => Except.ok product

/-- `ProductsService.findOne` performs no store writes and no emits: its
body (products.service.ts lines 54-58) is a `Map.get` and a throw only.
Its step trace is therefore empty. -/
def findOneSteps (_id : String) (_s : Store) : List StoreStep :=
  []

/-- `ProductsService.update` (products.service.ts lines 60-72): look up
via `findOne` (propagating `NotFoundException` before any effect), merge
the defined DTO fields over the existing entity by object spread, refresh
`updatedAt`, `Map.set` the result, then await the `product.updated`
emit. -/
def update (id : String) (dto : UpdateProductDto) (now : Nat) (publishOk : Bool)
    (s : Store) : Except OpError Product × List StoreStep :=
  match findOne id s with
  | Except.error e => (Except.error e, [])
  | Except.ok existing =>
    let updated : Product :=
      { existing with
        name := match dto.name with | some n => n | none => existing.name
        description := match dto.description with | some d => d | none => existing.description
        price := match dto.price with | some p => p | none => existing.price
        updatedAt := now }
    ((if publishOk then Except.ok updated else Except.error OpError.deliveryFailed),
     [StoreStep.set id updated, StoreStep.emit PRODUCT_EVENTS.UPDATED updated])

/-- `ProductsService.remove` (products.service.ts lines 74-78): look up
via `findOne` (propagating `NotFoundException` before any effect),
`Map.delete` the entry, then await the `product.deleted` emit whose
payload is the entity as it existed before removal. -/
def remove (id : String) (publishOk : Bool)
    (s : Store) : Except OpError Unit × List StoreStep :=
  match findOne id s with
  | Except.error e => (Except.error e, [])
  | Except.ok product =>
    ((if publishOk then Except.ok () else Except.error OpError.deliveryFailed),
     [StoreStep.del id, StoreStep.emit PRODUCT_EVENTS.DELETED product])

end ProductsService

/-- One service mutation call with its external inputs: the `uuidv4()`
result for create, the clock reading, and the broker outcome of the
awaited emit. -/
inductive StoreOp where
  | create : CreateProductDto → String → Nat → Bool → StoreOp
  | update : String → UpdateProductDto → Nat → Bool → StoreOp
  | remove : String → Bool → StoreOp
deriving DecidableEq, Repr

/-- Store state after one mutation call (the steps of its trace). -/
def runOp (s : Store) : StoreOp → Store
  | StoreOp.create dto newId now publishOk =>
      replay s (ProductsService.create dto newId now publishOk s).2
  | StoreOp.update id dto now publishOk =>
      replay s (ProductsService.update id dto now publishOk s).2
  | StoreOp.remove id publishOk =>
      replay s (ProductsService.remove id publishOk s).2

/-- Store state after a sequence of mutation calls. -/
def runOps (s : Store) (ops : List StoreOp) : Store :=
  ops.foldl runOp s

/-- Kafka topic (kafka-producer.service.ts / kafka-consumer.service.ts):
default `product-events`, the configurable name left at its default. -/
def TOPIC : String := "product-events"

/-- One Kafka message as handed to `producer.send`: partition key and
UTF-8 JSON value. -/
structure KafkaMessage where
  key : String
  value : String
deriving DecidableEq, Repr

/-- The record handed to `producer.send`: topic plus message list. -/
structure ProducerRecord where
  topic : String
  messages : List KafkaMessage
deriving DecidableEq, Repr

/-- The event envelope object literal built inside
`KafkaProducerService.emit`: `{ type, payload, timestamp }` with the keys
in that insertion order and `timestamp = new Date().toISOString()`. -/
def eventEnvelope (eventType : String) (payload : Json) (now : Nat) : Json :=
  Json.obj
    [("type", Json.str eventType),
     ("payload", payload),
     ("timestamp", Json.str (toISOString now))]

namespace KafkaProducerService

/-- `KafkaProducerService.emit` (kafka-producer.service.ts lines 33-47):
send exactly one message to `TOPIC` whose key is the event type and whose
value is `JSON.stringify({ type, payload, timestamp })`.  `now` is the
clock reading of `new Date()` at emission. -/
def emit (eventType : String) (payload : Json) (now : Nat) : ProducerRecord :=
  { topic := TOPIC
    messages :=
      [{ key := eventType
         value := renderJson (eventEnvelope eventType payload now) }] }

end KafkaProducerService

/-- `JSON.stringify` projection of a `Product`, as it appears as the
`payload` of an emitted envelope: object-literal key order, `Date` fields
serialized through `toISOString`. -/
def productToJson (p : Product) : Json :=
  Json.obj
    [("id", Json.str p.id),
     ("name", Json.str p.name),
     ("description", Json.str p.description),
     ("price", Json.num p.price),
     ("createdAt", Json.str (toISOString p.createdAt)),
     ("updatedAt", Json.str (toISOString p.updatedAt))]

/-- Outcome of `KafkaConsumerService.handleMessage` for one message. -/
inductive HandleResult where
  /-- `message.value` was absent or the empty string: the early
  `if (!value) return` fires, no log of any kind. -/
  | skippedEmpty : HandleResult
  /-- The `try` block threw (`JSON.parse` failed, or the parse produced
  `null` so that `event.type` access threw a `TypeError`): the `catch`
  logs the failure and returns, the message is skipped. -/
  | malformed : HandleResult
  /-- The message was logged as a normal event with whatever `type`,
  `timestamp` and `payload` properties the parsed value has. -/
  | dispatched : Json → HandleResult

/-- `KafkaConsumerService.handleMessage` (kafka-consumer.service.ts lines
71-84).  The input is `message.value?.toString()`: `none` embeds a
missing value.  JavaScript property access on a non-null parsed value
never throws (absent properties are `undefined`), so every successfully
parsed non-null value is dispatched to the logging handler. -/
def KafkaConsumerService.handleMessage (value : Option String) : HandleResult :=
  match value with
  | none => HandleResult.skippedEmpty
  | some v =>
    if v = "" then HandleResult.skippedEmpty
    else
      match parseJson v with
      | none => HandleResult.malformed
      | some Json.null => HandleResult.malformed
      | some event => HandleResult.dispatched event

/-- The consumer's `eachMessage` loop: every received message is handled
independently by `handleMessage`, which never throws, so one message's
outcome cannot stop the loop. -/
def runConsumer (msgs : List (Option String)) : List HandleResult :=
  msgs.map KafkaConsumerService.handleMessage

/-- Modelled from the spec: the "expected envelope shape" of §3 and §7 — 
a JSON object carrying `type`, `payload` and `timestamp` fields.  The
repository's consumer contains no such shape check; this definition only
states the spec's notion for comparison. -/
def isEnvelopeShape (j : Json) : Bool :=
  (j.getField "type").isSome && (j.getField "payload").isSome &&
    (j.getField "timestamp").isSome

/-- Follows the spec's words (§4.1, §8): the view of a single identifier
after one operation.  A create of this identifier installs the entity
with the given fields and `createdAt = updatedAt = now`; an update of a
present identifier applies exactly the supplied fields and refreshes
`updatedAt`; a remove of a present identifier deletes it; operations that
fail with `NotFound`, and operations on other identifiers, leave the view
unchanged. -/
def specStep (id : String) (view : Option Product) : StoreOp → Option Product
  | StoreOp.create dto newId now _ =>
      if newId = id then
        some { id := newId
               name := dto.name
               description := dto.description
               price := dto.price
               createdAt := now
               updatedAt := now }
      else view
  | StoreOp.update uid dto now _ =>
      if uid = id then
        match view with
        | none => none
        | some p =>
          some { p with
                 name := match dto.name with | some n => n | none => p.name
                 description := match dto.description with | some d => d | none => p.description
                 price := match dto.price with | some pr => pr | none => p.price
                 updatedAt := now }
      else view
  | StoreOp.remove rid _ =>
      if rid = id then none else view

/-- Follows the spec's words (§8): the entity the store should associate
to `id` after a sequence of operations from the empty store — present
exactly when created and not subsequently removed, carrying the field
values of the most recent create or update. -/
def specView (ops : List StoreOp) (id : String) : Option Product :=
  ops.foldl (specStep id) none

/-- Clock reading of an operation, when it takes one (`new Date()` is
read in create and update; remove touches no timestamp). -/
def opTime : StoreOp → Option Nat
  | StoreOp.create _ _ now _ => some now
  | StoreOp.update _ _ now _ => some now
  | StoreOp.remove _ _ => none

/-- Well-formedness of the store: keys are pairwise distinct (a
JavaScript `Map` cannot hold duplicate keys). -/
def storeWF (s : Store) : Prop :=
  (s.map (fun kv => kv.1)).Nodup



theorem jsMapGet_set (s : Store) (k k' : String) (v : Product) :
    jsMapGet (jsMapSet s k v) k' = if k = k' then some v else jsMapGet s k' := by
  induction s with
  | nil =>
    rw [jsMapSet, jsMapGet]
    by_cases h2 : k = k' <;> simp [jsMapGet, h2]
  | cons kv rest ih =>
    by_cases h1 : kv.1 = k
    · rw [jsMapSet, if_pos h1]
      by_cases h2 : k = k'
      · rw [jsMapGet, if_pos h2, if_pos h2]
      · rw [jsMapGet, if_neg h2, if_neg h2, jsMapGet, if_neg (fun hh => h2 (h1 ▸ hh))]
    · rw [jsMapSet, if_neg h1]
      by_cases h2 : kv.1 = k'
      · have h3 : ¬k = k' := fun hh => h1 (h2.trans hh.symm)
        rw [jsMapGet, if_pos h2, if_neg h3, jsMapGet, if_pos h2]
    
      · rw [jsMapGet, if_neg h2, ih, jsMapGet, if_neg h2]

theorem jsMapGet_delete_ne (s : Store) (k k' : String) (h : ¬k = k') :
    jsMapGet (jsMapDelete s k) k' = jsMapGet s k' := by
  induction s with
  | nil => rw [jsMapDelete]
  | cons kv rest ih =>
    by_cases h1 : kv.1 = k
    · rw [jsMapDelete, if_pos h1, jsMapGet, if_neg (fun hh => h (h1 ▸ hh))]
    · by_cases h2 : kv.1 = k'
      · rw [jsMapDelete, if_neg h1, jsMapGet, if_pos h2, jsMapGet, if_pos h2]
      · rw [jsMapDelete, if_neg h1, jsMapGet, if_neg h2, jsMapGet, if_neg h2, ih]

theorem jsMapGet_none_of_not_mem_keys (s : Store) (k : String)
    (h : k ∉ s.map (fun kv => kv.1)) : jsMapGet s k = none := by
  induction s with
  | nil => rfl
  | cons kv rest ih =>
    rw [List.map_cons] at h
    have h1 : ¬kv.1 = k := fun hh => h (hh ▸ List.mem_cons_self _ _)
    have h2 : k ∉ rest.map (fun kv => kv.1) := fun hh => h (List.mem_cons_of_mem _ hh)
    rw [jsMapGet, if_neg h1, ih h2]

theorem jsMapGet_delete_self (s : Store) (k : String) (hs : storeWF s) :
    jsMapGet (jsMapDelete s k) k = none := by
  induction s with
  | nil => rfl
  | cons kv rest ih =>
    unfold storeWF at hs
    rw [List.map_cons, List.nodup_cons] at hs
    by_cases h1 : kv.1 = k
    · rw [jsMapDelete, if_pos h1]
      exact jsMapGet_none_of_not_mem_keys rest k (h1 ▸ hs.1)
    · rw [jsMapDelete, if_neg h1, jsMapGet, if_neg h1, ih hs.2]

theorem mem_keys_jsMapSet (s : Store) (k a : String) (v : Product)
    (h : a ∈ (jsMapSet s k v).map (fun kv => kv.1)) :
    a = k ∨ a ∈ s.map (fun kv => kv.1) := by
  induction s with
  | nil =>
    rw [jsMapSet, List.map_cons] at h
    rcases List.mem_cons.1 h with h | h
    · exact Or.inl h
    · simp at h
  | cons kv rest ih =>
    by_cases h1 : kv.1 = k
    · rw [jsMapSet, if_pos h1, List.map_cons] at h
      rcases List.mem_cons.1 h with h | h
      · exact Or.inl h
      · exact Or.inr (List.map_cons (fun kv => kv.1) kv rest ▸ List.mem_cons_of_mem _ h)
    · rw [jsMapSet, if_neg h1, List.map_cons] at h
      rcases List.mem_cons.1 h with h | h
      · exact Or.inr (List.map_cons (fun kv => kv.1) kv rest ▸ (h ▸ List.mem_cons_self _ _))
      · rcases ih h with h | h
        · exact Or.inl h
        · exact Or.inr (List.map_cons (fun kv => kv.1) kv rest ▸ List.mem_cons_of_mem _ h)

theorem storeWF_jsMapSet (s : Store) (k : String) (v : Product) (hs : storeWF s) :
    storeWF (jsMapSet s k v) := by
  induction s with
  | nil => simp [storeWF, jsMapSet]
  | cons kv rest ih =>
    unfold storeWF at hs ⊢
    rw [List.map_cons, List.nodup_cons] at hs
    by_cases h1 : kv.1 = k
    · rw [jsMapSet, if_pos h1, List.map_cons, List.nodup_cons]
      exact ⟨h1 ▸ hs.1, hs.2⟩
    · rw [jsMapSet, if_neg h1, List.map_cons, List.nodup_cons]
      refine ⟨fun hmem => ?_, ih hs.2⟩
      rcases mem_keys_jsMapSet rest k kv.1 v hmem with h | h
      · exact h1 h
      · exact hs.1 h

theorem mem_keys_jsMapDelete (s : Store) (k a : String)
    (h : a ∈ (jsMapDelete s k).map (fun kv => kv.1)) :
    a ∈ s.map (fun kv => kv.1) := by
  induction s with
  | nil => rw [jsMapDelete] at h; exact h
  | cons kv rest ih =>
    rw [List.map_cons]
    by_cases h1 : kv.1 = k
    · rw [jsMapDelete, if_pos h1] at h
      exact List.mem_cons_of_mem _ h
    · rw [jsMapDelete, if_neg h1, List.map_cons] at h
      rcases List.mem_cons.1 h with h | h
      · exact h ▸ List.mem_cons_self _ _
      · exact List.mem_cons_of_mem _ (ih h)

theorem storeWF_jsMapDelete (s : Store) (k : String) (hs : storeWF s) :
    storeWF (jsMapDelete s k) := by
  induction s with
  | nil => rw [jsMapDelete] at *; exact hs
  | cons kv rest ih =>
    unfold storeWF at hs ⊢
    rw [List.map_cons, List.nodup_cons] at hs
    by_cases h1 : kv.1 = k
    · rw [jsMapDelete, if_pos h1]
      exact hs.2
    · rw [jsMapDelete, if_neg h1, List.map_cons, List.nodup_cons]
      exact ⟨fun hmem => hs.1 (mem_keys_jsMapDelete rest k kv.1 hmem), ih hs.2⟩

theorem mem_jsMapSet (s : Store) (k : String) (v : Product) (kv' : String × Product)
    (h : kv' ∈ jsMapSet s k v) : kv' = (k, v) ∨ kv' ∈ s := by
  induction s with
  | nil =>
    rw [jsMapSet] at h
    rcases List.mem_cons.1 h with h | h
    · exact Or.inl h
    · simp at h
  | cons kv rest ih =>
    by_cases h1 : kv.1 = k
    · rw [jsMapSet, if_pos h1] at h
      rcases List.mem_cons.1 h with h | h
      · exact Or.inl h
      · exact Or.inr (List.mem_cons_of_mem _ h)
    · rw [jsMapSet, if_neg h1] at h
      rcases List.mem_cons.1 h with h | h
      · exact Or.inr (h ▸ List.mem_cons_self _ _)
      · rcases ih h with h | h
        · exact Or.inl h
        · exact Or.inr (List.mem_cons_of_mem _ h)

theorem mem_jsMapDelete (s : Store) (k : String) (kv' : String × Product)
    (h : kv' ∈ jsMapDelete s k) : kv' ∈ s := by
  induction s with
  | nil => rw [jsMapDelete] at h; exact h
  | cons kv rest ih =>
    by_cases h1 : kv.1 = k
    · rw [jsMapDelete, if_pos h1] at h
      exact List.mem_cons_of_mem _ h
    · rw [jsMapDelete, if_neg h1] at h
      rcases List.mem_cons.1 h with h | h
      · exact h ▸ List.mem_cons_self _ _
      · exact List.mem_cons_of_mem _ (ih h)

theorem jsMapGet_mem (s : Store) (k : String) (p : Product)
    (h : jsMapGet s k = some p) : (k, p) ∈ s := by
  induction s with
  | nil => simp [jsMapGet] at h
  | cons kv rest ih =>
    by_cases h1 : kv.1 = k
    · rw [jsMapGet, if_pos h1] at h
      have h2 : kv.2 = p := Option.some.inj h
      have h3 : (k, p) = kv := Prod.ext h1.symm h2.symm
      exact h3 ▸ List.mem_cons_self _ _
    · rw [jsMapGet, if_neg h1] at h
      exact List.mem_cons_of_mem _ (ih h)

theorem mem_jsMapValues_iff (s : Store) (hs : storeWF s)
    (hid : ∀ kv ∈ s, Product.id kv.2 = kv.1) (p : Product) :
    p ∈ jsMapValues s ↔ jsMapGet s p.id = some p := by
  induction s with
  | nil => simp [jsMapValues, jsMapGet]
  | cons kv rest ih =>
    unfold storeWF at hs
    rw [List.map_cons, List.nodup_cons] at hs
    have hid0 : Product.id kv.2 = kv.1 := hid kv (List.mem_cons_self _ _)
    have hidr : ∀ kv' ∈ rest, Product.id kv'.2 = kv'.1 :=
      fun kv' h => hid kv' (List.mem_cons_of_mem _ h)
    constructor
    · intro hmem
      rw [jsMapValues, List.map_cons] at hmem
      rcases List.mem_cons.1 hmem with h | h
      · have h1 : kv.1 = p.id := by rw [← hid0, h]
        rw [jsMapGet, if_pos h1, h]
      · have hr := (ih hs.2 hidr).1 h
        have h1 : ¬kv.1 = p.id := by
          intro he
          exact hs.1 (he ▸ List.mem_map_of_mem (fun kv => kv.1) (jsMapGet_mem rest p.id p hr))
        rw [jsMapGet, if_neg h1]
        exact hr
    · intro hget
      rw [jsMapValues, List.map_cons]
      by_cases h1 : kv.1 = p.id
      · rw [jsMapGet, if_pos h1] at hget
        exact (Option.some.inj hget) ▸ List.mem_cons_self _ _
      · rw [jsMapGet, if_neg h1] at hget
        exact List.mem_cons_of_mem _ ((ih hs.2 hidr).2 hget)

/-- Within a mutation's step trace, every publish attempt sees the store
already carrying the given expected value at the given key: at each
position holding an emit, replaying the steps before it yields the
expected lookup result. -/
def emitsAfterMutation (s : Store) (steps : List StoreStep) (k : String)
    (expected : Option Product) : Prop :=
  ∀ n t p, steps[n]? = some (StoreStep.emit t p) →
    jsMapGet (replay s (steps.take n)) k = expected

theorem jsMapGet_runOp (s : Store) (hs : storeWF s) (op : StoreOp) (id : String) :
    jsMapGet (runOp s op) id = specStep id (jsMapGet s id) op := by
  cases op with
  | create dto newId now publishOk =>
    rw [runOp, ProductsService.create]
    rw [replay, List.foldl_cons, List.foldl_cons, List.foldl_nil, applyStep, applyStep]
    rw [jsMapGet_set]
    simp only [specStep]
  | update uid dto now publishOk =>
    rw [runOp, ProductsService.update, ProductsService.findOne]
    cases h : jsMapGet s uid with
    | none =>
      rw [replay, List.foldl_nil]
      simp only [specStep]
      by_cases h1 : uid = id
      · rw [if_pos h1, ← h1, h]
      · rw [if_neg h1]
    | some existing =>
      rw [replay, List.foldl_cons, List.foldl_cons, List.foldl_nil, applyStep, applyStep]
      rw [jsMapGet_set]
      simp only [specStep]
      by_cases h1 : uid = id
      · rw [if_pos h1, if_pos h1, ← h1, h]
      · rw [if_neg h1, if_neg h1]
  | remove rid publishOk =>
    rw [runOp, ProductsService.remove, ProductsService.findOne]
    cases h : jsMapGet s rid with
    | none =>
      rw [replay, List.foldl_nil]
      simp only [specStep]
      by_cases h1 : rid = id
      · rw [if_pos h1, ← h1, h]
      · rw [if_neg h1]
    | some p =>
      rw [replay, List.foldl_cons, List.foldl_cons, List.foldl_nil, applyStep, applyStep]
      simp only [specStep]
      by_cases h1 : rid = id
      · rw [if_pos h1, ← h1, jsMapGet_delete_self s rid hs]
      · rw [if_neg h1, jsMapGet_delete_ne s rid id h1]

theorem storeWF_runOp (s : Store) (op : StoreOp) (hs : storeWF s) :
    storeWF (runOp s op) := by
  cases op with
  | create dto newId now publishOk =>
    rw [runOp, ProductsService.create]
    rw [replay, List.foldl_cons, List.foldl_cons, List.foldl_nil, applyStep, applyStep]
    exact storeWF_jsMapSet s _ _ hs
  | update uid dto now publishOk =>
    rw [runOp, ProductsService.update, ProductsService.findOne]
    cases h : jsMapGet s uid with
    | none => rw [replay, List.foldl_nil]; exact hs
    | some existing =>
      rw [replay, List.foldl_cons, List.foldl_cons, List.foldl_nil, applyStep, applyStep]
      exact storeWF_jsMapSet s _ _ hs
  | remove rid publishOk =>
    rw [runOp, ProductsService.remove, ProductsService.findOne]
    cases h : jsMapGet s rid with
    | none => rw [replay, List.foldl_nil]; exact hs
    | some p =>
      rw [replay, List.foldl_cons, List.foldl_cons, List.foldl_nil, applyStep, applyStep]
      exact storeWF_jsMapDelete s _ hs

theorem idcoh_runOp (s : Store) (op : StoreOp)
    (hid : ∀ kv ∈ s, Product.id kv.2 = kv.1) :
    ∀ kv ∈ runOp s op, Product.id kv.2 = kv.1 := by
  cases op with
  | create dto newId now publishOk =>
    intro kv hkv
    rw [runOp, ProductsService.create, replay, List.foldl_cons, List.foldl_cons,
      List.foldl_nil, applyStep, applyStep] at hkv
    rcases mem_jsMapSet s _ _ kv hkv with h | h
    · rw [h]
    · exact hid kv h
  | update uid dto now publishOk =>
    intro kv hkv
    rw [runOp, ProductsService.update, ProductsService.findOne] at hkv
    cases h : jsMapGet s uid with
    | none =>
      rw [h, replay, List.foldl_nil] at hkv
      exact hid kv hkv
    | some existing =>
      rw [h, replay, List.foldl_cons, List.foldl_cons, List.foldl_nil,
        applyStep, applyStep] at hkv
      rcases mem_jsMapSet s _ _ kv hkv with hh | hh
      · rw [hh]
        exact hid (uid, existing) (jsMapGet_mem s uid existing h)
      · exact hid kv hh
  | remove rid publishOk =>
    intro kv hkv
    rw [runOp, ProductsService.remove, ProductsService.findOne] at hkv
    cases h : jsMapGet s rid with
    | none =>
      rw [h, replay, List.foldl_nil] at hkv
      exact hid kv hkv
    | some p =>
      rw [h, replay, List.foldl_cons, List.foldl_cons, List.foldl_nil,
        applyStep, applyStep] at hkv
      exact hid kv (mem_jsMapDelete s rid kv hkv)

theorem storeWF_runOps (ops : List StoreOp) (s : Store) (hs : storeWF s) :
    storeWF (runOps s ops) := by
  induction ops generalizing s with
  | nil => exact hs
  | cons op rest ih =>
    rw [runOps, List.foldl_cons]
    exact ih (runOp s op) (storeWF_runOp s op hs)

theorem idcoh_runOps (ops : List StoreOp) (s : Store)
    (hid : ∀ kv ∈ s, Product.id kv.2 = kv.1) :
    ∀ kv ∈ runOps s ops, Product.id kv.2 = kv.1 := by
  induction ops generalizing s with
  | nil => exact hid
  | cons op rest ih =>
    rw [runOps, List.foldl_cons]
    exact ih (runOp s op) (idcoh_runOp s op hid)

theorem jsMapGet_runOps (ops : List StoreOp) (s : Store) (hs : storeWF s) (id : String) :
    jsMapGet (runOps s ops) id = ops.foldl (specStep id) (jsMapGet s id) := by
  induction ops generalizing s with
  | nil => rfl
  | cons op rest ih =>
    rw [runOps, List.foldl_cons, List.foldl_cons, ← jsMapGet_runOp s hs op id]
    exact ih (runOp s op) (storeWF_runOp s op hs)

/-- Timestamp/identity invariant of a store state bounded by a clock
reading: every entry satisfies `createdAt ≤ updatedAt`, its `updatedAt`
does not exceed the bound, and its entity id equals its map key. -/
def timeInv (s : Store) (t : Nat) : Prop :=
  ∀ kv ∈ s, kv.2.createdAt ≤ kv.2.updatedAt ∧ kv.2.updatedAt ≤ t ∧ kv.2.id = kv.1

theorem timeInv_mono (s : Store) (t u : Nat) (h : timeInv s t) (htu : t ≤ u) :
    timeInv s u :=
  fun kv hkv => ⟨(h kv hkv).1, le_trans (h kv hkv).2.1 htu, (h kv hkv).2.2⟩

theorem timeInv_create (s : Store) (dto : CreateProductDto) (newId : String)
    (u : Nat) (publishOk : Bool) (t : Nat) (h : timeInv s t) (htu : t ≤ u) :
    timeInv (runOp s (StoreOp.create dto newId u publishOk)) u := by
  intro kv hkv
  rw [runOp, ProductsService.create, replay, List.foldl_cons, List.foldl_cons,
    List.foldl_nil, applyStep, applyStep] at hkv
  rcases mem_jsMapSet s _ _ kv hkv with hh | hh
  · rw [hh]
    exact ⟨le_refl u, le_refl u, rfl⟩
  · exact (timeInv_mono s t u h htu) kv hh

theorem timeInv_update (s : Store) (uid : String) (dto : UpdateProductDto)
    (u : Nat) (publishOk : Bool) (t : Nat) (h : timeInv s t) (htu : t ≤ u) :
    timeInv (runOp s (StoreOp.update uid dto u publishOk)) u := by
  intro kv hkv
  rw [runOp, ProductsService.update, ProductsService.findOne] at hkv
  cases hg : jsMapGet s uid with
  | none =>
    rw [hg, replay, List.foldl_nil] at hkv
    exact (timeInv_mono s t u h htu) kv hkv
  | some existing =>
    rw [hg, replay, List.foldl_cons, List.foldl_cons, List.foldl_nil,
      applyStep, applyStep] at hkv
    rcases mem_jsMapSet s _ _ kv hkv with hh | hh
    · have hex := h (uid, existing) (jsMapGet_mem s uid existing hg)
      rw [hh]
      exact ⟨le_trans (le_trans hex.1 hex.2.1) htu, le_refl u, hex.2.2⟩
    · exact (timeInv_mono s t u h htu) kv hh

theorem timeInv_remove (s : Store) (rid : String) (publishOk : Bool) (t : Nat)
    (h : timeInv s t) :
    timeInv (runOp s (StoreOp.remove rid publishOk)) t := by
  intro kv hkv
  rw [runOp, ProductsService.remove, ProductsService.findOne] at hkv
  cases hg : jsMapGet s rid with
  | none =>
    rw [hg, replay, List.foldl_nil] at hkv
    exact h kv hkv
  | some p =>
    rw [hg, replay, List.foldl_cons, List.foldl_cons, List.foldl_nil,
      applyStep, applyStep] at hkv
    exact h kv (mem_jsMapDelete s rid kv hkv)

theorem timeInv_runOps (ops : List StoreOp) (s : Store) (t : Nat)
    (hinv : timeInv s t)
    (hpair : (ops.filterMap opTime).Pairwise (· ≤ ·))
    (hlow : ∀ u ∈ ops.filterMap opTime, t ≤ u) :
    ∀ kv ∈ runOps s ops, kv.2.createdAt ≤ kv.2.updatedAt ∧ kv.2.id = kv.1 := by
  induction ops generalizing s t with
  | nil =>
    intro kv hkv
    exact ⟨(hinv kv hkv).1, (hinv kv hkv).2.2⟩
  | cons op rest ih =>
    rw [runOps, List.foldl_cons]
    cases op with
    | create dto newId u publishOk =>
      rw [List.filterMap_cons] at hpair hlow
      simp only [opTime] at hpair hlow
      rw [List.pairwise_cons] at hpair
      have htu : t ≤ u := hlow u (List.mem_cons_self _ _)
      exact ih (runOp s (StoreOp.create dto newId u publishOk)) u
        (timeInv_create s dto newId u publishOk t hinv htu)
        hpair.2 hpair.1
    | update uid dto u publishOk =>
      rw [List.filterMap_cons] at hpair hlow
      simp only [opTime] at hpair hlow
      rw [List.pairwise_cons] at hpair
      have htu : t ≤ u := hlow u (List.mem_cons_self _ _)
      exact ih (runOp s (StoreOp.update uid dto u publishOk)) u
        (timeInv_update s uid dto u publishOk t hinv htu)
        hpair.2 hpair.1
    | remove rid publishOk =>
      rw [List.filterMap_cons] at hpair hlow
      simp only [opTime] at hpair hlow
      exact ih (runOp s (StoreOp.remove rid publishOk)) t
        (timeInv_remove s rid publishOk t hinv)
        hpair hlow

/-- C4: for every id present in the store, `update(id, partialFields)`
applies exactly the fields present in the partial DTO, leaves every
omitted field unchanged (as well as `id` and `createdAt`), sets
`updatedAt` to the current time, replaces the stored entity, and returns
the updated entity; for every id absent from the store it fails with
`NotFound`. -/
theorem c4_update_applies_partial_fields (s : Store) (id : String)
    (dto : UpdateProductDto) (now : Nat) (existing : Product)
    (hex : jsMapGet s id = some existing)
    (sn : Store) (idn : String) (hn : jsMapGet sn idn = none) :
    (∃ u, ProductsService.update id dto now true s =
          (Except.ok u, [StoreStep.set id u, StoreStep.emit PRODUCT_EVENTS.UPDATED u]) ∧
        (∀ n, dto.name = some n → u.name = n) ∧
        (dto.name = none → u.name = existing.name) ∧
        (∀ d, dto.description = some d → u.description = d) ∧
        (dto.description = none → u.description = existing.description) ∧
        (∀ c, dto.price = some c → u.price = c) ∧
        (dto.price = none → u.price = existing.price) ∧
        u.id = existing.id ∧ u.createdAt = existing.createdAt ∧ u.updatedAt = now ∧
        jsMapGet (replay s (ProductsService.update id dto now true s).2) id = some u) ∧
    (∀ publishOk, ProductsService.update idn dto now publishOk sn =
        (Except.error (OpError.notFound idn), [])) := by
  constructor
  · refine ⟨{ existing with
        name := match dto.name with | some n => n | none => existing.name
        description := match dto.description with | some d => d | none => existing.description
        price := match dto.price with | some c => c | none => existing.price
        updatedAt := now }, ?_, ?_, ?_, ?_, ?_, ?_, ?_, ?_, ?_, ?_, ?_⟩
    · rw [ProductsService.update, ProductsService.findOne, hex]
      rfl
    · intro n hn2
      simp [hn2]
    · intro hn2
      simp [hn2]
    · intro d hn2
      simp [hn2]
    · intro hn2
      simp [hn2]
    · intro c hn2
      simp [hn2]
    · intro hn2
      simp [hn2]
    · rfl
    · rfl
    · rfl
    · rw [ProductsService.update, ProductsService.findOne, hex, replay,
        List.foldl_cons, List.foldl_cons, List.foldl_nil, applyStep, applyStep,
        jsMapGet_set, if_pos rfl]
  · intro publishOk
    rw [ProductsService.update, ProductsService.findOne, hn]

/-- C4 witness: a concrete present-id update applying only `description`
and a concrete absent-id update failing with `NotFound`. -/
theorem c4_update_applies_partial_fields_witness :
    ProductsService.update "b" { name := none, description := some "x", price := none } 5 true
      [("a", { id := "a", name := "n0", description := "d0", price := 1, createdAt := 0, updatedAt := 0 })] =
      (Except.error (OpError.notFound "b"), []) :=
  (c4_update_applies_partial_fields
    [("a", { id := "a", name := "n0", description := "d0", price := 1, createdAt := 0, updatedAt := 0 })]
    "a" { name := none, description := some "x", price := none } 5
    { id := "a", name := "n0", description := "d0", price := 1, createdAt := 0, updatedAt := 0 }
    rfl
    [("a", { id := "a", name := "n0", description := "d0", price := 1, createdAt := 0, updatedAt := 0 })]
    "b" rfl).2 true

/-- C10: for every id absent from the store, `update` and `remove` fail
with `NotFound` before performing any mutation: the step trace is empty,
so the store mapping is unchanged and no publish attempt is made. -/
theorem c10_absent_id_fails_before_any_effect (s : Store) (id : String)
    (h : jsMapGet s id = none) :
    (∀ dto now publishOk, ProductsService.update id dto now publishOk s =
        (Except.error (OpError.notFound id), [])) ∧
    (∀ publishOk, ProductsService.remove id publishOk s =
        (Except.error (OpError.notFound id), [])) ∧
    (∀ dto now publishOk,
        replay s (ProductsService.update id dto now publishOk s).2 = s ∧
        emitsOf (ProductsService.update id dto now publishOk s).2 = []) ∧
    (∀ publishOk,
        replay s (ProductsService.remove id publishOk s).2 = s ∧
        emitsOf (ProductsService.remove id publishOk s).2 = []) := by
  refine ⟨?_, ?_, ?_, ?_⟩
  · intro dto now publishOk
    rw [ProductsService.update, ProductsService.findOne, h]
  · intro publishOk
    rw [ProductsService.remove, ProductsService.findOne, h]
  · intro dto now publishOk
    rw [ProductsService.update, ProductsService.findOne, h]
    exact ⟨rfl, rfl⟩
  · intro publishOk
    rw [ProductsService.remove, ProductsService.findOne, h]
    exact ⟨rfl, rfl⟩

/-- C10 witness: on a concrete store not containing `"zz"`, both failing
mutations return `NotFound` with an empty effect trace. -/
theorem c10_absent_id_fails_before_any_effect_witness :
    ProductsService.update "zz" { name := none, description := none, price := none } 7 true
      [("a", { id := "a", name := "n0", description := "d0", price := 1, createdAt := 0, updatedAt := 0 })] =
      (Except.error (OpError.notFound "zz"), []) :=
  (c10_absent_id_fails_before_any_effect
    [("a", { id := "a", name := "n0", description := "d0", price := 1, createdAt := 0, updatedAt := 0 })]
    "zz" rfl).1 { name := none, description := none, price := none } 7 true

/-- C1 counterexample: on the empty store with a failing broker, the
create call's store mutation succeeds (the entity is in the mapping after
the call) yet the call does not complete with the mutation's success
result — the caller-visible outcome is the uncaught `DeliveryFailed`
rejection of the awaited emit. -/
theorem c1_counterexample :
    (ProductsService.create
        { name := "Laptop", description := "Gaming laptop", price := 999 }
        "id-1" 0 false jsMapEmpty).1 = Except.error OpError.deliveryFailed ∧
    jsMapGet (replay jsMapEmpty (ProductsService.create
        { name := "Laptop", description := "Gaming laptop", price := 999 }
        "id-1" 0 false jsMapEmpty).2) "id-1" =
      some { id := "id-1", name := "Laptop", description := "Gaming laptop",
             price := 999, createdAt := 0, updatedAt := 0 } :=
  ⟨rfl, rfl⟩

/-- C1 (amended): for create/update/remove whose store mutation has
succeeded, a failure of the subsequent publish does not roll the mutation
back — the step trace is identical to the successful-publish trace and
the mapping still reflects the mutation — but the operation's outcome to
its original caller is the `DeliveryFailed` error instead of the
mutation's success result. -/
theorem c1_amended_publish_failure_keeps_mutation (s : Store) (hs : storeWF s)
    (uid : String) (udto : UpdateProductDto) (unow : Nat) (uexisting : Product)
    (hu : jsMapGet s uid = some uexisting)
    (rid : String) (rexisting : Product) (hr : jsMapGet s rid = some rexisting) :
    (∀ cdto newId cnow,
        (ProductsService.create cdto newId cnow false s).1 = Except.error OpError.deliveryFailed ∧
        (ProductsService.create cdto newId cnow false s).2 =
          (ProductsService.create cdto newId cnow true s).2 ∧
        jsMapGet (replay s (ProductsService.create cdto newId cnow false s).2) newId ≠ none) ∧
    ((ProductsService.update uid udto unow false s).1 = Except.error OpError.deliveryFailed ∧
     (ProductsService.update uid udto unow false s).2 =
       (ProductsService.update uid udto unow true s).2 ∧
     jsMapGet (replay s (ProductsService.update uid udto unow false s).2) uid ≠ none) ∧
    ((ProductsService.remove rid false s).1 = Except.error OpError.deliveryFailed ∧
     (ProductsService.remove rid false s).2 = (ProductsService.remove rid true s).2 ∧
     jsMapGet (replay s (ProductsService.remove rid false s).2) rid = none) := by
  refine ⟨?_, ⟨?_, ?_, ?_⟩, ⟨?_, ?_, ?_⟩⟩
  · intro cdto newId cnow
    refine ⟨rfl, rfl, ?_⟩
    rw [ProductsService.create, replay, List.foldl_cons, List.foldl_cons,
      List.foldl_nil, applyStep, applyStep, jsMapGet_set, if_pos rfl]
    exact fun h => Option.noConfusion h
  · rw [ProductsService.update, ProductsService.findOne, hu]
    rfl
  · simp only [ProductsService.update, ProductsService.findOne, hu]
  · rw [ProductsService.update, ProductsService.findOne, hu, replay,
      List.foldl_cons, List.foldl_cons, List.foldl_nil, applyStep, applyStep,
      jsMapGet_set, if_pos rfl]
    exact fun h => Option.noConfusion h
  · rw [ProductsService.remove, ProductsService.findOne, hr]
    rfl
  · simp only [ProductsService.remove, ProductsService.findOne, hr]
  · rw [ProductsService.remove, ProductsService.findOne, hr, replay,
      List.foldl_cons, List.foldl_cons, List.foldl_nil, applyStep, applyStep]
    exact jsMapGet_delete_self s rid hs

/-- C1 witness: a concrete failing-publish remove rejects with
`DeliveryFailed` while the entry is really gone from the mapping. -/
theorem c1_amended_publish_failure_keeps_mutation_witness :
    (ProductsService.remove "a" false
        [("a", { id := "a", name := "n0", description := "d0", price := 1,
                 createdAt := 0, updatedAt := 0 })]).1 =
      Except.error OpError.deliveryFailed :=
  ((c1_amended_publish_failure_keeps_mutation
    [("a", { id := "a", name := "n0", description := "d0", price := 1,
             createdAt := 0, updatedAt := 0 })]
    (by simp [storeWF])
    "a" { name := none, description := none, price := none } 3
    { id := "a", name := "n0", description := "d0", price := 1, createdAt := 0, updatedAt := 0 }
    rfl
    "a" { id := "a", name := "n0", description := "d0", price := 1, createdAt := 0, updatedAt := 0 }
    rfl).2.2).1

/-- C2: every successful create/update/remove triggers exactly one
publish attempt, whose payload equals the entity's state after the
mutation (for remove, its last state before removal), and each attempt
occurs only at trace positions where the mutation is already reflected in
the mapping. -/
theorem c2_exactly_one_publish_after_mutation (s : Store) (hs : storeWF s)
    (uid : String) (uexisting : Product) (hu : jsMapGet s uid = some uexisting)
    (rid : String) (rexisting : Product) (hr : jsMapGet s rid = some rexisting) :
    (∀ dto newId now publishOk, ∃ p, p.id = newId ∧
        emitsOf (ProductsService.create dto newId now publishOk s).2 =
          [(PRODUCT_EVENTS.CREATED, p)] ∧
        jsMapGet (replay s (ProductsService.create dto newId now publishOk s).2) newId = some p ∧
        emitsAfterMutation s (ProductsService.create dto newId now publishOk s).2 newId (some p)) ∧
    (∀ udto unow publishOk, ∃ p,
        emitsOf (ProductsService.update uid udto unow publishOk s).2 =
          [(PRODUCT_EVENTS.UPDATED, p)] ∧
        jsMapGet (replay s (ProductsService.update uid udto unow publishOk s).2) uid = some p ∧
        emitsAfterMutation s (ProductsService.update uid udto unow publishOk s).2 uid (some p)) ∧
    (∀ publishOk,
        emitsOf (ProductsService.remove rid publishOk s).2 =
          [(PRODUCT_EVENTS.DELETED, rexisting)] ∧
        jsMapGet (replay s (ProductsService.remove rid publishOk s).2) rid = none ∧
        emitsAfterMutation s (ProductsService.remove rid publishOk s).2 rid none) := by
  refine ⟨?_, ?_, ?_⟩
  · intro dto newId now publishOk
    refine ⟨_, rfl, rfl, ?_, ?_⟩
    · rw [ProductsService.create, replay, List.foldl_cons, List.foldl_cons,
        List.foldl_nil, applyStep, applyStep, jsMapGet_set, if_pos rfl]
    · intro n t q hq
      rcases n with _ | _ | n
      · simp [ProductsService.create] at hq
      · rw [ProductsService.create, replay, List.take, List.take, List.foldl_cons,
          List.foldl_nil, applyStep, jsMapGet_set, if_pos rfl]
      · simp [ProductsService.create] at hq
  · intro udto unow publishOk
    rw [ProductsService.update, ProductsService.findOne, hu]
    refine ⟨_, rfl, ?_, ?_⟩
    · rw [replay, List.foldl_cons, List.foldl_cons, List.foldl_nil,
        applyStep, applyStep, jsMapGet_set, if_pos rfl]
    · intro n t q hq
      rcases n with _ | _ | n
      · simp at hq
      · rw [replay, List.take, List.take, List.foldl_cons,
          List.foldl_nil, applyStep, jsMapGet_set, if_pos rfl]
      · simp at hq
  · intro publishOk
    rw [ProductsService.remove, ProductsService.findOne, hr]
    refine ⟨rfl, ?_, ?_⟩
    · rw [replay, List.foldl_cons, List.foldl_cons, List.foldl_nil,
        applyStep, applyStep]
      exact jsMapGet_delete_self s rid hs
    · intro n t q hq
      rcases n with _ | _ | n
      · simp at hq
      · rw [replay, List.take, List.take, List.foldl_cons, List.foldl_nil, applyStep]
        exact jsMapGet_delete_self s rid hs
      · simp at hq

/-- C2 witness: a concrete successful remove emits exactly the one
`product.deleted` attempt carrying the pre-removal entity. -/
theorem c2_exactly_one_publish_after_mutation_witness :
    emitsOf (ProductsService.remove "a" true
        [("a", { id := "a", name := "n0", description := "d0", price := 1,
                 createdAt := 0, updatedAt := 0 })]).2 =
      [(PRODUCT_EVENTS.DELETED,
        { id := "a", name := "n0", description := "d0", price := 1,
          createdAt := 0, updatedAt := 0 })] :=
  ((c2_exactly_one_publish_after_mutation
    [("a", { id := "a", name := "n0", description := "d0", price := 1,
             createdAt := 0, updatedAt := 0 })]
    (by simp [storeWF])
    "a" { id := "a", name := "n0", description := "d0", price := 1, createdAt := 0, updatedAt := 0 }
    rfl
    "a" { id := "a", name := "n0", description := "d0", price := 1, createdAt := 0, updatedAt := 0 }
    rfl).2.2 true).1

/-- C3: for every finite sequence of create/update/remove operations
starting from the empty store, the mapping associates to each id exactly
the spec-side view (created and not subsequently removed, with the field
values of the most recent create or update), and `findAll` returns
exactly those entities. -/
theorem c3_list_reflects_operations (ops : List StoreOp) :
    (∀ id, jsMapGet (runOps jsMapEmpty ops) id = specView ops id) ∧
    (∀ p, p ∈ ProductsService.findAll (runOps jsMapEmpty ops) ↔
        specView ops p.id = some p) := by
  have hwf0 : storeWF jsMapEmpty := List.nodup_nil
  have hwf : storeWF (runOps jsMapEmpty ops) := storeWF_runOps ops jsMapEmpty hwf0
  have hid : ∀ kv ∈ runOps jsMapEmpty ops, Product.id kv.2 = kv.1 :=
    idcoh_runOps ops jsMapEmpty (fun kv hkv => absurd hkv (List.not_mem_nil kv))
  have hget : ∀ id, jsMapGet (runOps jsMapEmpty ops) id = specView ops id :=
    fun id => jsMapGet_runOps ops jsMapEmpty hwf0 id
  refine ⟨hget, fun p => ?_⟩
  rw [ProductsService.findAll, mem_jsMapValues_iff (runOps jsMapEmpty ops) hwf hid p, hget p.id]

theorem presence_runOp (s : Store) (op : StoreOp) (k : String)
    (hpres : jsMapGet s k ≠ none) (hnot : ∀ pk, op ≠ StoreOp.remove k pk) :
    jsMapGet (runOp s op) k ≠ none := by
  cases op with
  | create dto newId now publishOk =>
    rw [runOp, ProductsService.create, replay, List.foldl_cons, List.foldl_cons,
      List.foldl_nil, applyStep, applyStep, jsMapGet_set]
    by_cases h1 : newId = k
    · rw [if_pos h1]
      exact fun h => Option.noConfusion h
    · rw [if_neg h1]
      exact hpres
  | update uid dto now publishOk =>
    rw [runOp, ProductsService.update, ProductsService.findOne]
    cases h : jsMapGet s uid with
    | none =>
      rw [replay, List.foldl_nil]
      exact hpres
    | some existing =>
      rw [replay, List.foldl_cons, List.foldl_cons, List.foldl_nil,
        applyStep, applyStep, jsMapGet_set]
      by_cases h1 : uid = k
      · rw [if_pos h1]
        exact fun h => Option.noConfusion h
      · rw [if_neg h1]
        exact hpres
  | remove rid publishOk =>
    have hne : ¬rid = k := fun he => hnot publishOk (by rw [he])
    rw [runOp, ProductsService.remove, ProductsService.findOne]
    cases h : jsMapGet s rid with
    | none =>
      rw [replay, List.foldl_nil]
      exact hpres
    | some p =>
      rw [replay, List.foldl_cons, List.foldl_cons, List.foldl_nil,
        applyStep, applyStep, jsMapGet_delete_ne s rid k hne]
      exact hpres

theorem presence_runOps (ops : List StoreOp) (s : Store) (k : String)
    (hpres : jsMapGet s k ≠ none)
    (hnot : ∀ op ∈ ops, ∀ pk, op ≠ StoreOp.remove k pk) :
    jsMapGet (runOps s ops) k ≠ none := by
  induction ops generalizing s with
  | nil => exact hpres
  | cons op rest ih =>
    rw [runOps, List.foldl_cons]
    exact ih (runOp s op)
      (presence_runOp s op k hpres (hnot op (List.mem_cons_self _ _)))
      (fun op' hop' => hnot op' (List.mem_cons_of_mem _ hop'))

/-- C7: `findOne(id)` fails with `NotFound` exactly when the id is absent
from the store; after a create that returned an id, `findOne` on that id
succeeds as long as no subsequent remove of that id occurred; and a
failing (or any) `findOne` performs no store mutation — its effect trace
is empty. -/
theorem c7_get_notfound_iff_absent (s : Store) (id : String)
    (pre : List StoreOp) (cdto : CreateProductDto) (cid : String) (cnow : Nat)
    (cpub : Bool) (post : List StoreOp)
    (hpost : ∀ op ∈ post, ∀ pk, op ≠ StoreOp.remove cid pk) :
    (ProductsService.findOne id s = Except.error (OpError.notFound id) ↔
      jsMapGet s id = none) ∧
    (∃ p, ProductsService.findOne cid
        (runOps jsMapEmpty (pre ++ StoreOp.create cdto cid cnow cpub :: post)) =
        Except.ok p) ∧
    (∀ q sq, replay sq (ProductsService.findOneSteps q sq) = sq) := by
  refine ⟨?_, ?_, fun q sq => rfl⟩
  · cases h : jsMapGet s id with
    | none => simp [ProductsService.findOne, h]
    | some p => simp [ProductsService.findOne, h]
  · have hpres : jsMapGet (runOps jsMapEmpty (pre ++ StoreOp.create cdto cid cnow cpub :: post)) cid ≠ none := by
      rw [runOps, List.foldl_append, List.foldl_cons]
      refine presence_runOps post _ cid ?_ hpost
      rw [runOp, ProductsService.create, replay, List.foldl_cons, List.foldl_cons,
        List.foldl_nil, applyStep, applyStep, jsMapGet_set, if_pos rfl]
      exact fun h => Option.noConfusion h
    cases h : jsMapGet (runOps jsMapEmpty (pre ++ StoreOp.create cdto cid cnow cpub :: post)) cid with
    | none => exact absurd h hpres
    | some p =>
      refine ⟨p, ?_⟩
      rw [ProductsService.findOne, h]

/-- C7 witness: after a concrete create of `"a"` followed by an update of
`"a"` and a remove of an unrelated id, `findOne "a"` succeeds; and on a
concrete store, `findOne` of a missing id fails with `NotFound`. -/
theorem c7_get_notfound_iff_absent_witness :
    ProductsService.findOne "zz"
        [("a", { id := "a", name := "n0", description := "d0", price := 1,
                 createdAt := 0, updatedAt := 0 })] =
      Except.error (OpError.notFound "zz") :=
  (c7_get_notfound_iff_absent
    [("a", { id := "a", name := "n0", description := "d0", price := 1,
             createdAt := 0, updatedAt := 0 })]
    "zz" [] { name := "n", description := "d", price := 2 } "a" 1 true
    [StoreOp.update "a" { name := none, description := none, price := some 5 } 3 true,
     StoreOp.remove "b" true]
    (by
      intro op hop pk
      rcases List.mem_cons.1 hop with h | h
      · rw [h]
        exact fun hh => StoreOp.noConfusion hh
      · rcases List.mem_cons.1 h with h | h
        · rw [h]
          intro hh
          injection hh with h1 h2
          exact absurd h1 (by decide)
        · exact absurd h (List.not_mem_nil op))).1.2 rfl

/-- C9: in every store state reachable by create/update/remove from the
empty store under a non-decreasing clock, every stored entity satisfies
`updatedAt ≥ createdAt`, and every entity's identifier equals its map key
(so the identifier never changes after creation). -/
theorem c9_timestamps_and_immutable_id (ops : List StoreOp)
    (hmono : (ops.filterMap opTime).Pairwise (· ≤ ·)) :
    ∀ kv ∈ runOps jsMapEmpty ops,
      kv.2.createdAt ≤ kv.2.updatedAt ∧ kv.2.id = kv.1 :=
  timeInv_runOps ops jsMapEmpty 0
    (fun kv hkv => absurd hkv (List.not_mem_nil kv))
    hmono
    (fun u _ => Nat.zero_le u)

/-- C9 witness: a concrete create-then-update run whose surviving entry
satisfies both invariant clauses. -/
theorem c9_timestamps_and_immutable_id_witness :
    ({ id := "a", name := "n", description := "d", price := 5, createdAt := 1,
          updatedAt := 3 } : Product).createdAt ≤
      ({ id := "a", name := "n", description := "d", price := 5, createdAt := 1,
            updatedAt := 3 } : Product).updatedAt ∧
    ({ id := "a", name := "n", description := "d", price := 5, createdAt := 1,
          updatedAt := 3 } : Product).id = "a" :=
  c9_timestamps_and_immutable_id
    [StoreOp.create { name := "n", description := "d", price := 2 } "a" 1 true,
     StoreOp.update "a" { name := none, description := none, price := some 5 } 3 true]
    (by decide)
    ("a", { id := "a", name := "n", description := "d", price := 5,
            createdAt := 1, updatedAt := 3 })
    (by decide)

/-- C8: every publish of `(eventType, payload)` sends exactly one message
to the topic, whose partition key equals the event type and whose value
is the JSON serialization of `{type, payload, timestamp}` with
`timestamp` the ISO-8601 instant of emission. -/
theorem c8_emit_exactly_one_keyed_envelope (eventType : String) (payload : Json) (now : Nat) :
    (KafkaProducerService.emit eventType payload now).messages.length = 1 ∧
    (KafkaProducerService.emit eventType payload now).topic = TOPIC ∧
    (KafkaProducerService.emit eventType payload now).messages =
      [{ key := eventType,
         value := renderJson (Json.obj
           [("type", Json.str eventType),
            ("payload", payload),
            ("timestamp", Json.str (toISOString now))]) }] :=
  ⟨rfl, rfl, rfl⟩

theorem digitCh_isDigit (d : Nat) : (digitCh d).isDigit = true := by
  rcases d with _|_|_|_|_|_|_|_|_|d <;> rfl

theorem digitCh_toNat (d : Nat) (h : d < 10) : (digitCh d).toNat = 48 + d := by
  interval_cases d <;> rfl

theorem digitsToNat_append_single (xs : List Char) (c : Char) :
    digitsToNat (xs ++ [c]) = digitsToNat xs * 10 + (c.toNat - 48) := by
  rw [digitsToNat, digitsToNat, List.foldl_append, List.foldl_cons, List.foldl_nil]

theorem natToChars_props (n : Nat) :
    ∃ k t, k < 10 ∧ natToChars n = digitCh k :: t ∧
      (∀ c ∈ digitCh k :: t, c.isDigit = true) ∧
      leadOk (digitCh k :: t) = true ∧
      digitsToNat (digitCh k :: t) = n := by
  induction n using Nat.strong_induction_on with
  | _ n ih =>
    rw [natToChars]
    by_cases h : n < 10
    · rw [if_pos h]
      refine ⟨n, [], h, rfl, ?_, ?_, ?_⟩
      · intro c hc
        rcases List.mem_cons.1 hc with hc | hc
        · rw [hc]; exact digitCh_isDigit n
        · exact absurd hc (List.not_mem_nil c)
      · rfl
      · interval_cases n <;> rfl
    · rw [if_neg h]
      obtain ⟨k, t, hk, heq, hdigs, hlead, hval⟩ :=
        ih (n / 10) (Nat.div_lt_self (by omega) (by omega))
      have hq1 : 1 ≤ n / 10 := Nat.le_div_iff_mul_le (by omega) |>.2 (by omega)
      have hk0 : ¬digitCh k = '0' := by
        intro hc
        rcases t with _ | ⟨c2, t2⟩
        · rw [hc] at hval
          simp [digitsToNat] at hval
          omega
        · rw [leadOk, hc] at hlead
          simp at hlead
      refine ⟨k, t ++ [digitCh (n % 10)], hk, ?_, ?_, ?_, ?_⟩
      · rw [heq, List.cons_append]
      · intro c hc
        rcases List.mem_cons.1 hc with hc | hc
        · rw [hc]; exact digitCh_isDigit k
        · rcases List.mem_append.1 hc with hc | hc
          · exact hdigs c (List.mem_cons_of_mem _ hc)
          · rcases List.mem_cons.1 hc with hc | hc
            · rw [hc]; exact digitCh_isDigit (n % 10)
            · exact absurd hc (List.not_mem_nil c)
      · rcases t with _ | ⟨c2, t2⟩
        · rw [List.nil_append, leadOk]
          simp [hk0]
        · rw [List.cons_append, leadOk]
          simp [hk0]
      · rw [← List.cons_append, digitsToNat_append_single, hval,
          digitCh_toNat (n % 10) (Nat.mod_lt _ (by omega))]
        omega

theorem takeDigits_append (ds rest : List Char)
    (hds : ∀ c ∈ ds, c.isDigit = true)
    (hrest : ∀ c, rest.head? = some c → c.isDigit = false) :
    takeDigits (ds ++ rest) = (ds, rest) := by
  induction ds with
  | nil =>
    rw [List.nil_append]
    cases rest with
    | nil => rfl
    | cons c cs =>
      rw [takeDigits, hrest c rfl]
      simp
  | cons d ds ih =>
    rw [List.cons_append, takeDigits, hds d (List.mem_cons_self _ _)]
    simp only [if_true]
    rw [ih (fun c hc => hds c (List.mem_cons_of_mem _ hc))]

theorem numBoundary_head (rest : List Char) (hb : numBoundary rest = true) :
    ∀ c, rest.head? = some c → c.isDigit = false := by
  cases rest with
  | nil => intro c h; exact absurd h (by simp)
  | cons c0 cs =>
    intro c h
    have hc : c0 = c := Option.some.inj h
    rw [numBoundary] at hb
    simp only [Bool.not_eq_eq_eq_not, Bool.not_true, Bool.or_eq_false_iff] at hb
    rw [← hc]
    exact hb.1.1.1

theorem digitCh_ne (k : Nat) (x : Char) (hx : x.isDigit = false) :
    ¬digitCh k = x := by
  intro h
  have hd := digitCh_isDigit k
  rw [h, hx] at hd
  exact Bool.noConfusion hd

theorem parseVal_int (f : Nat) (i : Int) (rest : List Char)
    (hb : numBoundary rest = true) :
    parseVal (f + 1) (intToChars i ++ rest) = some (Json.num i, rest) := by
  obtain ⟨k, t, hk, heq, hdigs, hlead, hval⟩ := natToChars_props i.natAbs
  have hrest := numBoundary_head rest hb
  have htake : takeDigits (digitCh k :: (t ++ rest)) = (digitCh k :: t, rest) := by
    rw [← List.cons_append]
    exact takeDigits_append _ _ hdigs hrest
  have e1 : ¬digitCh k = ' ' := digitCh_ne k ' ' rfl
  have e2 : ¬digitCh k = '\t' := digitCh_ne k '\t' rfl
  have e3 : ¬digitCh k = '\n' := digitCh_ne k '\n' rfl
  have e4 : ¬digitCh k = '\r' := digitCh_ne k '\r' rfl
  have e5 : ¬digitCh k = '{' := digitCh_ne k '{' rfl
  have e6 : ¬digitCh k = '[' := digitCh_ne k '[' rfl
  have e7 : ¬digitCh k = '"' := digitCh_ne k '"' rfl
  have e8 : ¬digitCh k = 't' := digitCh_ne k 't' rfl
  have e9 : ¬digitCh k = 'f' := digitCh_ne k 'f' rfl
  have e10 : ¬digitCh k = 'n' := digitCh_ne k 'n' rfl
  have e11 : ¬digitCh k = '-' := digitCh_ne k '-' rfl
  by_cases hneg : i < 0
  · rw [intToChars, if_pos hneg, heq, List.cons_append, List.cons_append]
    simp [parseVal, skipWs, htake, hlead, hb, hval, abs_of_neg hneg]
  · rw [intToChars, if_neg hneg, heq, List.cons_append]
    simp [parseVal, skipWs, e1, e2, e3, e4, e5, e6, e7, e8, e9, e10, e11,
      digitCh_isDigit k, htake, hlead, hb, hval]
    omega

theorem hexVal_hexCh (d : Nat) (hd : d < 16) : hexVal (hexCh d) = some d := by
  interval_cases d <;> rfl

theorem parseStringBody_escape (cs : List Char) : ∀ (acc rest : List Char),
    parseStringBody (escapeList cs ++ '"' :: rest) acc =
      some (String.mk (acc.reverse ++ cs), rest) := by
  induction cs with
  | nil =>
    intro acc rest
    rw [escapeList, List.nil_append, parseStringBody.eq_def]
    simp
  | cons c cs ih =>
    intro acc rest
    rw [escapeList, List.append_assoc]
    by_cases h1 : c = '"'
    · subst h1
      rw [show escapeChar '"' = ['\\', '"'] from rfl]
      simp only [List.cons_append, List.nil_append]
      rw [parseStringBody.eq_def]
      simp [ih]
    · by_cases h2 : c = '\\'
      · subst h2
        rw [show escapeChar '\\' = ['\\', '\\'] from rfl]
        simp only [List.cons_append, List.nil_append]
        rw [parseStringBody.eq_def]
        simp [ih]
      · by_cases h3 : c = Char.ofNat 8
        · subst h3
          rw [show escapeChar (Char.ofNat 8) = ['\\', 'b'] from rfl]
          simp only [List.cons_append, List.nil_append]
          rw [parseStringBody.eq_def]
          simp [ih]
        · by_cases h4 : c = Char.ofNat 9
          · subst h4
            rw [show escapeChar (Char.ofNat 9) = ['\\', 't'] from rfl]
            simp only [List.cons_append, List.nil_append]
            rw [parseStringBody.eq_def]
            simp [ih]
          · by_cases h5 : c = Char.ofNat 10
            · subst h5
              rw [show escapeChar (Char.ofNat 10) = ['\\', 'n'] from rfl]
              simp only [List.cons_append, List.nil_append]
              rw [parseStringBody.eq_def]
              simp [ih]
            · by_cases h6 : c = Char.ofNat 12
              · subst h6
                rw [show escapeChar (Char.ofNat 12) = ['\\', 'f'] from rfl]
                simp only [List.cons_append, List.nil_append]
                rw [parseStringBody.eq_def]
                simp [ih]
              · by_cases h7 : c = Char.ofNat 13
                · subst h7
                  rw [show escapeChar (Char.ofNat 13) = ['\\', 'r'] from rfl]
                  simp only [List.cons_append, List.nil_append]
                  rw [parseStringBody.eq_def]
                  simp [ih]
                · by_cases h8 : c.toNat < 32
                  · rw [escapeChar, if_neg h1, if_neg h2, if_neg h3, if_neg h4,
                      if_neg h5, if_neg h6, if_neg h7, if_pos h8]
                    simp only [List.cons_append, List.nil_append]
                    rw [parseStringBody.eq_def]
                    have ha : hexVal (hexCh (c.toNat / 16)) = some (c.toNat / 16) :=
                      hexVal_hexCh _ (by omega)
                    have hb2 : hexVal (hexCh (c.toNat % 16)) = some (c.toNat % 16) :=
                      hexVal_hexCh _ (by omega)
                    have harith : ((0 * 16 + 0) * 16 + c.toNat / 16) * 16 + c.toNat % 16 = c.toNat := by
                      omega
                    have harith2 : c.toNat / 16 * 16 + c.toNat % 16 = c.toNat := by omega
                    have hlt : c.toNat < 55296 ∨ 57343 < c.toNat := Or.inl (by omega)
                    simp [show hexVal '0' = some 0 from rfl, ha, hb2, harith, harith2, hlt,
                      Char.ofNat_toNat, ih]
                  · rw [escapeChar, if_neg h1, if_neg h2, if_neg h3, if_neg h4,
                      if_neg h5, if_neg h6, if_neg h7, if_neg h8]
                    simp only [List.cons_append, List.nil_append]
                    rw [parseStringBody.eq_def]
                    simp [h1, h2, h8, ih]

theorem parseVal_str (f : Nat) (s : String) (rest : List Char) :
    parseVal (f + 1) (renderString s ++ rest) = some (Json.str s, rest) := by
  rw [renderString, List.cons_append, List.append_assoc, List.singleton_append]
  simp [parseVal, skipWs, parseStringBody_escape s.data]

/-- A JSON value round-trips through the parser at every fuel above its
weight, whenever the rendered value is followed by a member separator or
a closing brace (the only contexts in which envelope members occur). -/
def RTval (v : Json) (w : Nat) : Prop :=
  ∀ g rest, w ≤ g → ((∃ cs, rest = ',' :: cs) ∨ (∃ cs, rest = '}' :: cs)) →
    parseVal (g + 1) (renderVal v ++ rest) = some (v, rest)

theorem RTval_str (s : String) : RTval (Json.str s) 0 := by
  intro g rest _ _
  rw [show renderVal (Json.str s) = renderString s from rfl]
  exact parseVal_str g s rest

theorem RTval_num (i : Int) : RTval (Json.num i) 0 := by
  intro g rest _ hsep
  have hb : numBoundary rest = true := by
    rcases hsep with ⟨cs, rfl⟩ | ⟨cs, rfl⟩ <;> rfl
  rw [show renderVal (Json.num i) = intToChars i from rfl]
  exact parseVal_int g i rest hb

theorem parseMembers_render (W : Nat) (kvs : List (String × Json))
    (hvals : ∀ kv ∈ kvs, RTval kv.2 W) :
    ∀ f acc rest, kvs ≠ [] → W + 2 * kvs.length ≤ f →
      parseMembers f (renderMembersR kvs ++ '}' :: rest) acc =
        some (Json.obj (acc.reverse ++ kvs), rest) := by
  induction kvs with
  | nil =>
    intro f acc rest hne _
    exact absurd rfl hne
  | cons kv kvs ih =>
    intro f acc rest _ hf
    obtain ⟨k, v⟩ := kv
    simp only [List.length_cons] at hf
    obtain ⟨f₁, rfl⟩ : ∃ f₁, f = f₁ + 1 := ⟨f - 1, by omega⟩
    obtain ⟨g, rfl⟩ : ∃ g, f₁ = g + 1 := ⟨f₁ - 1, by omega⟩
    have hv := hvals (k, v) (List.mem_cons_self _ _)
    cases kvs with
    | nil =>
      have hval : parseVal (g + 1) (renderVal v ++ '}' :: rest) =
          some (v, '}' :: rest) :=
        hv g ('}' :: rest) (by omega) (Or.inr ⟨rest, rfl⟩)
      rw [renderMembersR, renderString]
      simp only [List.cons_append, List.append_assoc, List.singleton_append]
      simp [parseMembers, skipWs, parseStringBody_escape k.data, hval]
    | cons kv2 kvs2 =>
      have hval : parseVal (g + 1)
          (renderVal v ++ ',' :: (renderMembersR (kv2 :: kvs2) ++ '}' :: rest)) =
          some (v, ',' :: (renderMembersR (kv2 :: kvs2) ++ '}' :: rest)) :=
        hv g _ (by omega) (Or.inl ⟨_, rfl⟩)
      have hrec := ih (fun kv hkv => hvals kv (List.mem_cons_of_mem _ hkv))
        (g + 1) ((k, v) :: acc) rest (by simp) (by simp only [List.length_cons] at hf ⊢; omega)
      rw [renderMembersR, renderString]
      simp only [List.cons_append, List.append_assoc, List.singleton_append]
      rw [parseMembers.eq_def]
      simp [skipWs, parseStringBody_escape k.data, hval, hrec]
      exact fun h => List.noConfusion h

theorem parseVal_obj (W : Nat) (kvs : List (String × Json)) (hne : kvs ≠ [])
    (hvals : ∀ kv ∈ kvs, RTval kv.2 W) (f : Nat) (hf : W + 2 * kvs.length ≤ f)
    (rest : List Char) :
    parseVal (f + 1) (renderVal (Json.obj kvs) ++ rest) = some (Json.obj kvs, rest) := by
  have hmem := parseMembers_render W kvs hvals f [] rest hne hf
  cases kvs with
  | nil => exact absurd rfl hne
  | cons kv t =>
    obtain ⟨k, v⟩ := kv
    have hshape : ∃ tail, renderMembersR ((k, v) :: t) = '"' :: tail := by
      cases t with
      | nil =>
        refine ⟨escapeList k.data ++ ['"'] ++ (':' :: renderVal v), ?_⟩
        rw [renderMembersR, renderString]
        simp [List.append_assoc]
      | cons kv2 t2 =>
        refine ⟨escapeList k.data ++ ['"'] ++
          (':' :: (renderVal v ++ ',' :: renderMembersR (kv2 :: t2))), ?_⟩
        rw [renderMembersR, renderString]
        simp [List.append_assoc]
        exact fun h => List.noConfusion h
    obtain ⟨tail, htail⟩ := hshape
    rw [show renderVal (Json.obj ((k, v) :: t)) =
        '{' :: (renderMembersR ((k, v) :: t) ++ ['}']) from rfl, htail]
    rw [htail] at hmem
    simp only [List.cons_append, List.append_assoc, List.singleton_append] at hmem ⊢
    simp [parseVal, skipWs, hmem]

theorem RTval_mono (v : Json) (w w' : Nat) (h : RTval v w) (hw : w ≤ w') :
    RTval v w' :=
  fun g rest hg hsep => h g rest (le_trans hw hg) hsep

theorem RTval_productToJson (p : Product) : RTval (productToJson p) 12 := by
  have hpvals : ∀ kv ∈ [("id", Json.str p.id), ("name", Json.str p.name),
      ("description", Json.str p.description), ("price", Json.num p.price),
      ("createdAt", Json.str (toISOString p.createdAt)),
      ("updatedAt", Json.str (toISOString p.updatedAt))], RTval kv.2 0 := by
    intro kv hkv
    simp only [List.mem_cons] at hkv
    rcases hkv with rfl | rfl | rfl | rfl | rfl | rfl | h
    · exact RTval_str _
    · exact RTval_str _
    · exact RTval_str _
    · exact RTval_num _
    · exact RTval_str _
    · exact RTval_str _
    · exact absurd h (List.not_mem_nil kv)
  intro g rest hg hsep
  rw [productToJson]
  exact parseVal_obj 0 _ (by simp) hpvals g (by simp; omega) rest

theorem parseVal_envelope (p : Product) (t : String) (now : Nat) (f : Nat)
    (hf : 18 ≤ f) (rest : List Char) :
    parseVal (f + 1) (renderVal (eventEnvelope t (productToJson p) now) ++ rest) =
      some (eventEnvelope t (productToJson p) now, rest) := by
  have hvals : ∀ kv ∈ [("type", Json.str t), ("payload", productToJson p),
      ("timestamp", Json.str (toISOString now))], RTval kv.2 12 := by
    intro kv hkv
    simp only [List.mem_cons] at hkv
    rcases hkv with rfl | rfl | rfl | h
    · exact RTval_mono _ 0 12 (RTval_str _) (by omega)
    · exact RTval_productToJson p
    · exact RTval_mono _ 0 12 (RTval_str _) (by omega)
    · exact absurd h (List.not_mem_nil kv)
  rw [eventEnvelope]
  exact parseVal_obj 12 _ (by simp) hvals f (by simp; omega) rest

theorem envelope_render_len (p : Product) (t : String) (now : Nat) :
    18 ≤ (renderVal (eventEnvelope t (productToJson p) now)).length := by
  have l1 : (renderString "type").length = 6 := rfl
  have l2 : (renderString "payload").length = 9 := rfl
  have l3 : (renderString "timestamp").length = 11 := rfl
  rw [eventEnvelope,
    show renderVal (Json.obj [("type", Json.str t), ("payload", productToJson p),
      ("timestamp", Json.str (toISOString now))]) =
      '{' :: (renderMembersR [("type", Json.str t), ("payload", productToJson p),
        ("timestamp", Json.str (toISOString now))] ++ ['}']) from rfl]
  rw [renderMembersR, renderMembersR, renderMembersR]
  · simp only [List.length_cons, List.length_append, l1, l2, l3]
    omega
  all_goals exact fun h => List.noConfusion h

theorem parseJson_render_envelope (p : Product) (t : String) (now : Nat) :
    parseJson (renderJson (eventEnvelope t (productToJson p) now)) =
      some (eventEnvelope t (productToJson p) now) := by
  rw [parseJson, renderJson]
  have henv := parseVal_envelope p t now
    (String.mk (renderVal (eventEnvelope t (productToJson p) now))).length
    (envelope_render_len p t now) []
  rw [List.append_nil] at henv
  rw [show (String.mk (renderVal (eventEnvelope t (productToJson p) now))).data =
    renderVal (eventEnvelope t (productToJson p) now) from rfl]
  rw [henv]
  rfl

/-- C5: serializing the event envelope built from an entity snapshot (as
`KafkaProducerService.emit` does) and then deserializing the bytes (as
the consumer's `JSON.parse` does) yields the envelope unchanged, whose
`payload` field is exactly the entity snapshot's serialized value
(`productToJson`, the `JSON.stringify` projection of the entity, with
`Date` fields as ISO strings). -/
theorem c5_envelope_roundtrip (p : Product) (t : String) (now : Nat) :
    parseJson (renderJson (eventEnvelope t (productToJson p) now)) =
      some (eventEnvelope t (productToJson p) now) ∧
    Json.getField (eventEnvelope t (productToJson p) now) "payload" =
      some (productToJson p) :=
  ⟨parseJson_render_envelope p t now, rfl⟩

/-- C6 counterexample: the message `"123"` parses as JSON but does not
have the envelope shape; the consumer neither logs a failure nor skips
it — it dispatches it to the logging handler as a normal event. -/
theorem c6_counterexample :
    parseJson "123" = some (Json.num 123) ∧
    isEnvelopeShape (Json.num 123) = false ∧
    KafkaConsumerService.handleMessage (some "123") =
      HandleResult.dispatched (Json.num 123) :=
  ⟨rfl, rfl, rfl⟩

/-- C6 (amended): the consumer logs-and-skips exactly the messages whose
bytes fail JSON parsing (or parse to JSON `null`, on which property
access throws); empty or absent values are skipped without a failure
log; every other message — any valid JSON value, envelope-shaped or
not — is dispatched to the handler; and handling is total and
per-message, so a malformed message never stops the loop: in every
message sequence, all other messages are still handled with their own
outcome. -/
theorem c6_amended_malformed_logged_skipped_loop_continues :
    (∀ v : String, ¬v = "" → parseJson v = none →
        KafkaConsumerService.handleMessage (some v) = HandleResult.malformed) ∧
    (∀ v : String, parseJson v = some Json.null →
        KafkaConsumerService.handleMessage (some v) = HandleResult.malformed) ∧
    (∀ (v : String) (e : Json), parseJson v = some e → ¬e = Json.null →
        KafkaConsumerService.handleMessage (some v) = HandleResult.dispatched e) ∧
    (∀ (pre post : List (Option String)) (m : Option String),
        runConsumer (pre ++ m :: post) =
          runConsumer pre ++ KafkaConsumerService.handleMessage m :: runConsumer post) := by
  refine ⟨?_, ?_, ?_, ?_⟩
  · intro v h1 h2
    simp [KafkaConsumerService.handleMessage, h1, h2]
  · intro v h2
    by_cases hv : v = ""
    · subst hv
      rw [show parseJson "" = none from rfl] at h2
      exact Option.noConfusion h2
    · simp [KafkaConsumerService.handleMessage, hv, h2]
  · intro v e h hne
    by_cases hv : v = ""
    · subst hv
      rw [show parseJson "" = none from rfl] at h
      exact Option.noConfusion h
    · cases e <;>
        first
        | exact absurd rfl hne
        | simp [KafkaConsumerService.handleMessage, hv, h]
  · intro pre post m
    simp [runConsumer]

/-- C6 witness: a concrete unparseable message is logged-and-skipped as
malformed. -/
theorem c6_amended_malformed_logged_skipped_loop_continues_witness :
    KafkaConsumerService.handleMessage (some "not json") = HandleResult.malformed :=
  c6_amended_malformed_logged_skipped_loop_continues.1 "not json" (by decide) rfl
